import Mathlib

/-!
Shallow embedding of the price-caching and portfolio-valuation engine of
`backend/main.py` (personal-finance-dashboard), together with proofs of the
specification claims about it.

Modelling conventions:
* Python floats are modelled by `ℚ` (exact arithmetic).
* MongoDB collections are modelled by lists; `find_one` is first match,
  `insert_one` appends, `update_one`/`delete_one` act on the first match
  (the collections carry unique indexes on the match keys, expressed as a
  `Pairwise` hypothesis where a proof needs it).
* `time.time()` is an explicit `now : ℚ` parameter.
* The external price providers (`fetch_live_price`) are an explicit
  `fetchResult : Option ℚ` parameter: `none` models "all providers failed".
* FastAPI endpoints that queue a background task are modelled as the pair of
  the immediate HTTP response and the database state after the queued task
  has run.
-/

namespace Backend

/-- A document of the `holdings` collection:
`{ symbol, qty, price (average cost), user_id }`. -/
structure Holding where
  symbol : String
  qty : ℚ
  price : ℚ
  user_id : String
deriving DecidableEq

/-- A document of the `prices` collection: `{ symbol, price, timestamp }`. -/
structure PriceDoc where
  symbol : String
  price : ℚ
  timestamp : ℚ
deriving DecidableEq

/-- A document of the `realized_gains` collection. -/
structure Sale where
  symbol : String
  qty : ℚ
  buy_price : ℚ
  sell_price : ℚ
  profit : ℚ
  user_id : String
deriving DecidableEq

/-- The database state: the four collections used by the engine
(`users` is reduced to the list of existing user ids). -/
structure DB where
  users : List String
  holdings : List Holding
  realized : List Sale
  prices : List PriceDoc
deriving DecidableEq

/-- Python's `str.upper()` as used on ticker symbols (ASCII uppercasing),
written over the character list so that it reduces in the kernel. -/
def pyUpper (s : String) : String := String.mk (s.data.map Char.toUpper)

/-- The Mongo filter `{"symbol": sym, "user_id": uid}` used by every
holdings query in `main.py`. -/
def holdingKey (uid sym : String) (h : Holding) : Bool :=
  h.symbol == sym && h.user_id == uid

/-- `holdings_col.find_one({"symbol": sym, "user_id": uid})`: first match. -/
def findHolding : List Holding → String → String → Option Holding
  | [], _, _ => none
  | h :: t, uid, sym => if holdingKey uid sym h then some h else findHolding t uid sym

/-- `holdings_col.update_one({"_id": existing["_id"]}, {"$set": {"qty": q, "price": p}})`
after `existing` was found by `(sym, uid)`: replace the first match. -/
def updateQtyPrice : List Holding → String → String → ℚ → ℚ → List Holding
  | [], _, _, _, _ => []
  | h :: t, uid, sym, q, p =>
    if holdingKey uid sym h then { h with qty := q, price := p } :: t
    else h :: updateQtyPrice t uid sym q p

/-- `holdings_col.update_one({"_id": h["_id"]}, {"$set": {"qty": q}})`:
replace the first match, touching only `qty`. -/
def updateQty : List Holding → String → String → ℚ → List Holding
  | [], _, _, _ => []
  | h :: t, uid, sym, q =>
    if holdingKey uid sym h then { h with qty := q } :: t
    else h :: updateQty t uid sym q

/-- `holdings_col.delete_one({"symbol": sym, "user_id": uid})` (or by the
found document's `_id`): remove the first match. -/
def deleteFirst : List Holding → String → String → List Holding
  | [], _, _ => []
  | h :: t, uid, sym => if holdingKey uid sym h then t else h :: deleteFirst t uid sym

/-- `_read_price`: `prices_col.find_one({"symbol": sym})`. -/
def read_price : List PriceDoc → String → Option PriceDoc
  | [], _ => none
  | d :: t, sym => if d.symbol == sym then some d else read_price t sym

/-- `_store_price`: upsert of `{price, timestamp := now}` keyed on symbol. -/
def store_price : List PriceDoc → String → ℚ → ℚ → List PriceDoc
  | [], sym, p, now => [⟨sym, p, now⟩]
  | d :: t, sym, p, now =>
    if d.symbol == sym then ⟨d.symbol, p, now⟩ :: t
    else d :: store_price t sym p now

/-- The freshness test `doc and (now - float(doc.get("timestamp", 0)) < max_age_sec)`. -/
def isFresh (doc : Option PriceDoc) (now max_age_sec : ℚ) : Bool :=
  match doc with
  | some d => decide (now - d.timestamp < max_age_sec)
  | none => false

/-- Result of `get_cached_price`: the returned price, the `prices` collection
afterwards, and whether `fetch_live_price` (the provider adapter) was invoked. -/
structure CacheResult where
  price : Option ℚ
  prices : List PriceDoc
  fetchCalled : Bool
deriving DecidableEq

/-- `get_cached_price(symbol, max_age_sec, allow_fetch)` of `main.py`.
`fetchResult` stands for what `fetch_live_price(symbol)` would return. -/
def get_cached_price (prices : List PriceDoc) (now : ℚ) (fetchResult : Option ℚ)
    (symbol : String) (max_age_sec : ℚ) (allow_fetch : Bool) : CacheResult :=
  let sym := pyUpper symbol
  let doc := read_price prices sym
  if isFresh doc now max_age_sec then
    ⟨doc.map (fun d => d.price), prices, false⟩
  else if allow_fetch then
    match fetchResult with
    | some p => ⟨some p, store_price prices sym p now, true⟩
    | none => ⟨doc.map (fun d => d.price), prices, true⟩
  else
    ⟨doc.map (fun d => d.price), prices, false⟩

/-- HTTP outcome of an endpoint: either a JSON body `{"status": s, "message": m}`
or a raised `HTTPException(code, detail)`. -/
inductive ApiResult where
  | body (status : String) (message : String)
  | httpError (code : Nat) (detail : String)
deriving DecidableEq

/-- An endpoint's immediate response together with the database state after any
queued background task has run. -/
structure EndpointOut where
  response : ApiResult
  db : DB
deriving DecidableEq

/-- The `insert_or_update` background task of `POST /holding`: warm the price
cache for the symbol, then weighted-average into an existing holding or insert
a new one. -/
def insert_or_update (db : DB) (now : ℚ) (fetchResult : Option ℚ)
    (user_id symbol : String) (qty price : ℚ) : DB :=
  let sym := pyUpper symbol
  let warm := get_cached_price db.prices now fetchResult sym 3600 true
  let holdings' :=
    match findHolding db.holdings user_id sym with
    | some existing =>
      let new_qty := existing.qty + qty
      let new_price := (existing.price * existing.qty + price * qty) / new_qty
      updateQtyPrice db.holdings user_id sym new_qty new_price
    | none => db.holdings ++ [⟨sym, qty, price, user_id⟩]
  { db with prices := warm.prices, holdings := holdings' }

/-- The `POST /holding` endpoint (`add_holding`). -/
def add_holding (db : DB) (now : ℚ) (fetchResult : Option ℚ)
    (user_id symbol : String) (qty price : ℚ) : EndpointOut :=
  ⟨ApiResult.body "success" ("Holding " ++ pyUpper symbol ++ " queued for saving"),
    insert_or_update db now fetchResult user_id symbol qty price⟩

/-- The `perform_delete` background task of `DELETE /holding/{symbol}`:
`delete_one`; a miss is only logged. -/
def perform_delete (db : DB) (user_id symbol : String) : DB :=
  { db with holdings := deleteFirst db.holdings user_id (pyUpper symbol) }

/-- The `DELETE /holding/{symbol}` endpoint (`delete_holding`). -/
def delete_holding (db : DB) (symbol user_id : String) : EndpointOut :=
  ⟨ApiResult.body "queued" ("Holding " ++ pyUpper symbol ++ " deletion queued"),
    perform_delete db user_id symbol⟩

/-- Python's `x or y` on an optional float: `y` when `x` is `None` or `0.0`. -/
def pyOr (x : Option ℚ) (y : ℚ) : ℚ :=
  match x with
  | some v => if v == 0 then y else v
  | none => y

/-- Tail of `process_sale` after the sale price is resolved: append the
realized-gain record, then decrement or delete the holding. -/
def sellFinish (db : DB) (user_id sym : String) (h : Holding)
    (qty buy_price sell_price : ℚ) (prices' : List PriceDoc) : DB :=
  let profit := (sell_price - buy_price) * qty
  let realized' := db.realized ++ [⟨sym, qty, buy_price, sell_price, profit, user_id⟩]
  let new_qty := h.qty - qty
  let holdings' :=
    if new_qty ≤ 0 then deleteFirst db.holdings user_id sym
    else updateQty db.holdings user_id sym new_qty
  { db with holdings := holdings', realized := realized', prices := prices' }

/-- The `process_sale` background task of `POST /holding/{symbol}/sell`:
missing holding or invalid quantity is only logged (state unchanged);
otherwise resolve the sale price (explicit, else cache with a 300 s window and
fetching allowed, else the buy price via Python `or`), record the sale and
shrink the position. -/
def process_sale (db : DB) (now : ℚ) (fetchResult : Option ℚ)
    (symbol user_id : String) (qty : ℚ) (priceOpt : Option ℚ) : DB :=
  let sym := pyUpper symbol
  match findHolding db.holdings user_id sym with
  | none => db
  | some h =>
    if qty ≤ 0 ∨ h.qty < qty then db
    else
      match priceOpt with
      | some p => sellFinish db user_id sym h qty h.price p db.prices
      | none =>
        let cache := get_cached_price db.prices now fetchResult sym 300 true
        sellFinish db user_id sym h qty h.price (pyOr cache.price h.price) cache.prices

/-- The `POST /holding/{symbol}/sell` endpoint (`sell_holding`). -/
def sell_holding (db : DB) (now : ℚ) (fetchResult : Option ℚ)
    (symbol user_id : String) (qty : ℚ) (priceOpt : Option ℚ) : EndpointOut :=
  ⟨ApiResult.body "queued" ("Sale of " ++ pyUpper symbol ++ " queued for processing."),
    process_sale db now fetchResult symbol user_id qty priceOpt⟩

/-- `bson.ObjectId` accepts exactly 24-character hexadecimal strings; this is
the validation performed by `ObjectId(user_id)` in `get_portfolio`. -/
def isHexDigit (c : Char) : Bool :=
  (decide ('0' ≤ c) && decide (c ≤ '9')) ||
  (decide ('a' ≤ c) && decide (c ≤ 'f')) ||
  (decide ('A' ≤ c) && decide (c ≤ 'F'))

/-- Validity of a `user_id` string as a BSON ObjectId. -/
def isValidObjectId (s : String) : Bool :=
  s.length == 24 && s.toList.all isHexDigit

/-- Python 3 `round` to an integer: round-half-to-even. -/
def roundHalfEven (x : ℚ) : ℤ :=
  let f := ⌊x⌋
  let r := x - f
  if r < 1/2 then f
  else if 1/2 < r then f + 1
  else if f % 2 = 0 then f else f + 1

/-- Python `round(x, 2)`. -/
def round2 (x : ℚ) : ℚ := (roundHalfEven (x * 100) : ℚ) / 100

/-- One row of the `GET /portfolio` response. -/
structure Row where
  symbol : String
  qty : ℚ
  avg_price : ℚ
  current_price : Option ℚ
  value : Option ℚ
  unrealized_profit : Option ℚ
  warning : Option String
deriving DecidableEq

/-- The `GET /portfolio` response body. -/
structure Portfolio where
  holdings : List Row
  realized_profit : ℚ
deriving DecidableEq

instance : DecidableEq (Except (Nat × String) Portfolio) := fun x y =>
  match x, y with
  | Except.error a, Except.error b => decidable_of_iff (a = b) (by simp)
  | Except.error _, Except.ok _ => isFalse (by simp)
  | Except.ok _, Except.error _ => isFalse (by simp)
  | Except.ok a, Except.ok b => decidable_of_iff (a = b) (by simp)

/-- The row built for one holding in `get_portfolio`: cache read with
`allow_fetch=False` (so no `fetchResult` is consulted), fields rounded to two
decimal places, `warning: price_unavailable` when no price is available. -/
def portfolioRow (prices : List PriceDoc) (now : ℚ) (h : Holding) : Row :=
  match (get_cached_price prices now none h.symbol 3600 false).price with
  | some p =>
    ⟨h.symbol, h.qty, h.price, some (round2 p), some (round2 (p * h.qty)),
      some (round2 ((p - h.price) * h.qty)), none⟩
  | none => ⟨h.symbol, h.qty, h.price, none, none, none, some "price_unavailable"⟩

/-- The `GET /portfolio` endpoint (`get_portfolio`): ObjectId validation (400),
user lookup (404), rows for the user's holdings with `qty > 0`, and the sum of
the user's realized profits. -/
def get_portfolio (db : DB) (now : ℚ) (user_id : String) :
    Except (Nat × String) Portfolio :=
  if !(isValidObjectId user_id) then Except.error (400, "Invalid user_id")
  else if !(db.users.contains user_id) then Except.error (404, "User not found")
  else
    let held := db.holdings.filter (fun h => h.user_id == user_id && decide (0 < h.qty))
    let rows := held.map (portfolioRow db.prices now)
    let realized := ((db.realized.filter (fun s => s.user_id == user_id)).map Sale.profit).sum
    Except.ok ⟨rows, realized⟩

/-- The sale-price resolution exactly as the specification words it (for
comparison with the code's `pyOr`-based resolution): the explicit price if
given, else the cache lookup with fetching allowed and the short 300 s
window, else the position's own average cost. -/
def specResolveSellPrice (prices : List PriceDoc) (now : ℚ) (fetchResult : Option ℚ)
    (sym : String) (avg : ℚ) (priceOpt : Option ℚ) : ℚ :=
  match priceOpt with
  | some p => p
  | none =>
    match (get_cached_price prices now fetchResult sym 300 true).price with
    | some p => p
    | none => avg

/-- The unique index `holdings_col.create_index([("symbol",1),("user_id",1)], unique=True)`:
no two documents share the `(symbol, user_id)` key. -/
def UniqueKeys (hs : List Holding) : Prop :=
  hs.Pairwise (fun a b => a.symbol ≠ b.symbol ∨ a.user_id ≠ b.user_id)

/-- The spec's Holding invariant: quantity is non-negative and a document with
quantity zero does not persist. -/
def QtyInvariant (hs : List Holding) : Prop :=
  ∀ h ∈ hs, 0 ≤ h.qty ∧ h.qty ≠ 0

/-- Total quantity of a list of `(quantity, price)` acquisitions. -/
def sumQ (L : List (ℚ × ℚ)) : ℚ := (L.map Prod.fst).sum

/-- Quantity-weighted total price of a list of `(quantity, price)` acquisitions. -/
def sumQP (L : List (ℚ × ℚ)) : ℚ := (L.map (fun qp => qp.1 * qp.2)).sum

/-- Run a sequence of `add_holding` background tasks for one `(owner, symbol)`. -/
def acquire_seq (db : DB) (now : ℚ) (fetchResult : Option ℚ) (uid sym : String) :
    List (ℚ × ℚ) → DB
  | [] => db
  | qp :: rest => acquire_seq (insert_or_update db now fetchResult uid sym qp.1 qp.2)
      now fetchResult uid sym rest

/-- What the claim (amended only by the 2-decimal presentation rounding the
code applies) asserts of a portfolio response `pf` for owner `uid`: one row
per positive-quantity holding, none dropped, with the value/unrealized-profit
formulas on a cache read that does not fetch, a `price_unavailable` marker
when no price is available, and realized profit the sum over the owner's
sales. -/
def RowMatches (db : DB) (now : ℚ) (uid : String) (pf : Portfolio) : Prop :=
  pf.holdings.length =
    (db.holdings.filter (fun h => h.user_id == uid && decide (0 < h.qty))).length ∧
  (∀ r ∈ pf.holdings, ∃ h, h ∈ db.holdings ∧ h.user_id = uid ∧ 0 < h.qty ∧
    r.symbol = h.symbol ∧ r.qty = h.qty ∧ r.avg_price = h.price ∧
    (∀ p, (get_cached_price db.prices now none h.symbol 3600 false).price = some p →
      r.current_price = some (round2 p) ∧ r.value = some (round2 (p * h.qty)) ∧
      r.unrealized_profit = some (round2 ((p - h.price) * h.qty)) ∧ r.warning = none) ∧
    ((get_cached_price db.prices now none h.symbol 3600 false).price = none →
      r.current_price = none ∧ r.value = none ∧ r.unrealized_profit = none ∧
      r.warning = some "price_unavailable")) ∧
  (∀ h ∈ db.holdings, h.user_id = uid → 0 < h.qty →
    portfolioRow db.prices now h ∈ pf.holdings) ∧
  pf.realized_profit = ((db.realized.filter (fun s => s.user_id == uid)).map Sale.profit).sum

/-- A database with no documents at all. -/
def emptyDB : DB := ⟨[], [], [], []⟩

/-- Example state: one user holds 5 shares of AAPL at an average cost of 100. -/
def dbSell : DB := ⟨[], [⟨"AAPL", 5, 100, "u"⟩], [], []⟩

/-- Example state: one user holds 10 shares of AAPL at an average cost of 100. -/
def dbTen : DB := ⟨[], [⟨"AAPL", 10, 100, "u"⟩], [], []⟩

/-- A syntactically valid BSON ObjectId string (24 hexadecimal characters). -/
def uidA : String := "aaaaaaaaaaaaaaaaaaaaaaaa"

/-- Example state for the portfolio view: user `uidA` holds 1 share of AAPL at
average cost 0, and the cache has AAPL at 1/8 observed at time 0. -/
def dbRound : DB := ⟨[uidA], [⟨"AAPL", 1, 0, uidA⟩], [], [⟨"AAPL", 1/8, 0⟩]⟩

theorem pyUpper_AAPL : pyUpper "AAPL" = "AAPL" := by decide

theorem holdingKey_eq_true {uid sym : String} {h : Holding} :
    holdingKey uid sym h = true ↔ h.symbol = sym ∧ h.user_id = uid := by
  simp [holdingKey]

theorem holdingKey_eq_false {uid sym : String} {h : Holding} :
    holdingKey uid sym h = false ↔ h.symbol ≠ sym ∨ h.user_id ≠ uid := by
  rw [← Bool.not_eq_true, holdingKey_eq_true, not_and_or]

theorem findHolding_mem {hs : List Holding} {uid sym : String} {h : Holding}
    (hf : findHolding hs uid sym = some h) : h ∈ hs := by
  induction hs with
  | nil => simp [findHolding] at hf
  | cons a t ih =>
    by_cases hk : holdingKey uid sym a
    · simp [findHolding, hk] at hf
      simp [hf]
    · simp [findHolding, hk] at hf
      exact List.mem_cons_of_mem _ (ih hf)

theorem findHolding_key {hs : List Holding} {uid sym : String} {h : Holding}
    (hf : findHolding hs uid sym = some h) : holdingKey uid sym h = true := by
  induction hs with
  | nil => simp [findHolding] at hf
  | cons a t ih =>
    by_cases hk : holdingKey uid sym a
    · simp [findHolding, hk] at hf
      rw [← hf]; exact hk
    · simp [findHolding, hk] at hf
      exact ih hf

theorem findHolding_eq_none {hs : List Holding} {uid sym : String} :
    findHolding hs uid sym = none ↔ ∀ h ∈ hs, holdingKey uid sym h = false := by
  induction hs with
  | nil => simp [findHolding]
  | cons a t ih =>
    by_cases hk : holdingKey uid sym a
    · simp [findHolding, hk]
    · simp [findHolding, hk, ih, Bool.not_eq_true, hk]

theorem findHolding_updateQtyPrice {hs : List Holding} {uid sym : String} {q p : ℚ}
    {ex : Holding} (hf : findHolding hs uid sym = some ex) :
    findHolding (updateQtyPrice hs uid sym q p) uid sym =
      some { ex with qty := q, price := p } := by
  induction hs with
  | nil => simp [findHolding] at hf
  | cons a t ih =>
    by_cases hk : holdingKey uid sym a
    · simp [findHolding, hk] at hf
      subst hf
      have hk' : holdingKey uid sym { a with qty := q, price := p } = true := by
        rcases holdingKey_eq_true.mp hk with ⟨h1, h2⟩
        exact holdingKey_eq_true.mpr ⟨h1, h2⟩
      simp [updateQtyPrice, hk, findHolding, hk']
    · simp [findHolding, hk] at hf
      simp [updateQtyPrice, hk, findHolding, ih hf]

theorem findHolding_updateQty {hs : List Holding} {uid sym : String} {q : ℚ}
    {ex : Holding} (hf : findHolding hs uid sym = some ex) :
    findHolding (updateQty hs uid sym q) uid sym = some { ex with qty := q } := by
  induction hs with
  | nil => simp [findHolding] at hf
  | cons a t ih =>
    by_cases hk : holdingKey uid sym a
    · simp [findHolding, hk] at hf
      subst hf
      have hk' : holdingKey uid sym { a with qty := q } = true := by
        rcases holdingKey_eq_true.mp hk with ⟨h1, h2⟩
        exact holdingKey_eq_true.mpr ⟨h1, h2⟩
      simp [updateQty, hk, findHolding, hk']
    · simp [findHolding, hk] at hf
      simp [updateQty, hk, findHolding, ih hf]

theorem findHolding_append_of_none {hs : List Holding} {uid sym : String} {d : Holding}
    (hf : findHolding hs uid sym = none) (hk : holdingKey uid sym d = true) :
    findHolding (hs ++ [d]) uid sym = some d := by
  induction hs with
  | nil => simp [findHolding, hk]
  | cons a t ih =>
    by_cases hka : holdingKey uid sym a
    · simp [findHolding, hka] at hf
    · simp [findHolding, hka] at hf ⊢
      exact ih hf

theorem deleteFirst_of_none {hs : List Holding} {uid sym : String}
    (hf : findHolding hs uid sym = none) : deleteFirst hs uid sym = hs := by
  induction hs with
  | nil => simp [deleteFirst]
  | cons a t ih =>
    by_cases hk : holdingKey uid sym a
    · simp [findHolding, hk] at hf
    · simp [findHolding, hk] at hf
      simp [deleteFirst, hk, ih hf]

theorem findHolding_deleteFirst {hs : List Holding} {uid sym : String}
    (hU : UniqueKeys hs) : findHolding (deleteFirst hs uid sym) uid sym = none := by
  induction hs with
  | nil => simp [deleteFirst, findHolding]
  | cons a t ih =>
    rcases List.pairwise_cons.mp hU with ⟨ha, ht⟩
    by_cases hk : holdingKey uid sym a
    · simp [deleteFirst, hk]
      rw [findHolding_eq_none]
      intro b hb
      rcases holdingKey_eq_true.mp hk with ⟨hs1, hu1⟩
      rcases ha b hb with h1 | h2
      · exact holdingKey_eq_false.mpr (Or.inl (by rw [← hs1]; exact fun hh => h1 hh.symm))
      · exact holdingKey_eq_false.mpr (Or.inr (by rw [← hu1]; exact fun hh => h2 hh.symm))
    · simp [deleteFirst, hk, findHolding]
      exact ih ht

theorem mem_updateQtyPrice {hs : List Holding} {uid sym : String} {q p : ℚ} {a : Holding}
    (ha : a ∈ updateQtyPrice hs uid sym q p) : a ∈ hs ∨ a.qty = q := by
  induction hs with
  | nil => simp [updateQtyPrice] at ha
  | cons b t ih =>
    by_cases hk : holdingKey uid sym b
    · simp [updateQtyPrice, hk] at ha
      rcases ha with h1 | h2
      · right; rw [h1]
      · exact Or.inl (List.mem_cons_of_mem _ h2)
    · simp [updateQtyPrice, hk] at ha
      rcases ha with h1 | h2
      · exact Or.inl (by simp [h1])
      · rcases ih h2 with h3 | h4
        · exact Or.inl (List.mem_cons_of_mem _ h3)
        · exact Or.inr h4

theorem mem_updateQty {hs : List Holding} {uid sym : String} {q : ℚ} {a : Holding}
    (ha : a ∈ updateQty hs uid sym q) : a ∈ hs ∨ a.qty = q := by
  induction hs with
  | nil => simp [updateQty] at ha
  | cons b t ih =>
    by_cases hk : holdingKey uid sym b
    · simp [updateQty, hk] at ha
      rcases ha with h1 | h2
      · right; rw [h1]
      · exact Or.inl (List.mem_cons_of_mem _ h2)
    · simp [updateQty, hk] at ha
      rcases ha with h1 | h2
      · exact Or.inl (by simp [h1])
      · rcases ih h2 with h3 | h4
        · exact Or.inl (List.mem_cons_of_mem _ h3)
        · exact Or.inr h4

theorem mem_deleteFirst {hs : List Holding} {uid sym : String} {a : Holding}
    (ha : a ∈ deleteFirst hs uid sym) : a ∈ hs := by
  induction hs with
  | nil => simp [deleteFirst] at ha
  | cons b t ih =>
    by_cases hk : holdingKey uid sym b
    · simp [deleteFirst, hk] at ha
      exact List.mem_cons_of_mem _ ha
    · simp [deleteFirst, hk] at ha
      rcases ha with h1 | h2
      · simp [h1]
      · exact List.mem_cons_of_mem _ (ih h2)

theorem mem_updateQty_of_key_false {hs : List Holding} {uid sym : String} {q : ℚ}
    {a : Holding} (ha : a ∈ hs) (hk : holdingKey uid sym a = false) :
    a ∈ updateQty hs uid sym q := by
  induction hs with
  | nil => simp at ha
  | cons b t ih =>
    rcases List.mem_cons.mp ha with rfl | hmem
    · rw [Bool.eq_false_iff] at hk
      simp [updateQty, hk]
    · by_cases hkb : holdingKey uid sym b
      · simp [updateQty, hkb]
        exact Or.inr hmem
      · simp [updateQty, hkb]
        exact Or.inr (ih hmem)

theorem read_price_mem {ps : List PriceDoc} {sym : String} {d : PriceDoc}
    (h : read_price ps sym = some d) : d ∈ ps := by
  induction ps with
  | nil => simp [read_price] at h
  | cons b t ih =>
    by_cases hk : (b.symbol == sym) = true
    · simp [read_price, hk] at h
      simp [h]
    · simp [read_price, hk] at h
      exact List.mem_cons_of_mem _ (ih h)

theorem insert_or_update_holdings_existing {db : DB} {now : ℚ} {f : Option ℚ}
    {uid symbol : String} {q p : ℚ} {ex : Holding}
    (hf : findHolding db.holdings uid (pyUpper symbol) = some ex) :
    (insert_or_update db now f uid symbol q p).holdings =
      updateQtyPrice db.holdings uid (pyUpper symbol) (ex.qty + q)
        ((ex.price * ex.qty + p * q) / (ex.qty + q)) := by
  simp [insert_or_update, hf]

theorem insert_or_update_holdings_none {db : DB} {now : ℚ} {f : Option ℚ}
    {uid symbol : String} {q p : ℚ}
    (hf : findHolding db.holdings uid (pyUpper symbol) = none) :
    (insert_or_update db now f uid symbol q p).holdings =
      db.holdings ++ [⟨pyUpper symbol, q, p, uid⟩] := by
  simp [insert_or_update, hf]

theorem process_sale_holdings (db : DB) (now : ℚ) (f : Option ℚ)
    (symbol uid : String) (q : ℚ) (pOpt : Option ℚ) :
    (process_sale db now f symbol uid q pOpt).holdings =
      match findHolding db.holdings uid (pyUpper symbol) with
      | none => db.holdings
      | some h =>
        if q ≤ 0 ∨ h.qty < q then db.holdings
        else if h.qty - q ≤ 0 then deleteFirst db.holdings uid (pyUpper symbol)
        else updateQty db.holdings uid (pyUpper symbol) (h.qty - q) := by
  cases hf : findHolding db.holdings uid (pyUpper symbol) with
  | none => simp [process_sale, hf]
  | some h =>
    by_cases hcond : q ≤ 0 ∨ h.qty < q
    · simp [process_sale, hf, hcond]
    · cases pOpt <;> simp [process_sale, hf, hcond, sellFinish]

/-- C3 (amended): a cache read with `allow_fetch=false` never invokes the
provider adapter and leaves the cache unchanged, and it returns the cached
entry's price whenever an entry for the symbol exists — whether fresh or
stale — returning `None` only when there is no entry at all. -/
theorem cache_read_no_fetch_C3 (prices : List PriceDoc) (now max_age_sec : ℚ)
    (f : Option ℚ) (symbol : String) :
    (get_cached_price prices now f symbol max_age_sec false).fetchCalled = false ∧
    (get_cached_price prices now f symbol max_age_sec false).prices = prices ∧
    (get_cached_price prices now f symbol max_age_sec false).price =
      (read_price prices (pyUpper symbol)).map (fun d => d.price) := by
  cases hfr : isFresh (read_price prices (pyUpper symbol)) now max_age_sec <;>
    simp [get_cached_price, hfr]

/-- C3 counterexample: a cached AAPL price observed at time 0 and read at time
7200 with `max_age=3600` is stale (`now − observed_at ≥ max_age`), yet the
no-fetch read returns the cached price 10 instead of `None` as the claim
asserts (the provider is still not invoked). -/
theorem cache_read_stale_C3_counterexample :
    (3600 : ℚ) ≤ 7200 - 0 ∧
    (get_cached_price [⟨"AAPL", 10, 0⟩] 7200 none "AAPL" 3600 false).price = some 10 ∧
    (get_cached_price [⟨"AAPL", 10, 0⟩] 7200 none "AAPL" 3600 false).fetchCalled = false := by
  refine ⟨by norm_num, ?_, ?_⟩ <;>
    norm_num [get_cached_price, read_price, isFresh, pyUpper_AAPL]

/-- C4 counterexample: on a database with no holdings, a sell request and a
delete request are not rejected: both endpoints answer with a queued/success
body and the ledger state is unchanged, so the `NotFound` failure is not
observable in the operation's result (it is only logged). -/
theorem reject_not_surfaced_C4_counterexample :
    findHolding emptyDB.holdings "u" (pyUpper "AAPL") = none ∧
    (sell_holding emptyDB 0 none "AAPL" "u" 5 (some 120)).response =
      ApiResult.body "queued" "Sale of AAPL queued for processing." ∧
    (sell_holding emptyDB 0 none "AAPL" "u" 5 (some 120)).db = emptyDB ∧
    (delete_holding emptyDB "AAPL" "u").response =
      ApiResult.body "queued" "Holding AAPL deletion queued" ∧
    (delete_holding emptyDB "AAPL" "u").db = emptyDB := by
  refine ⟨by simp [emptyDB, findHolding], ?_, ?_, ?_, ?_⟩
  · simp only [sell_holding, pyUpper_AAPL]
    decide
  · simp [sell_holding, process_sale, emptyDB, findHolding]
  · simp only [delete_holding, pyUpper_AAPL]
    decide
  · simp [delete_holding, perform_delete, emptyDB, deleteFirst]

/-- C4 (amended): an invalid quantity or a missing Holding makes the queued
background operation abort with no ledger state change (and deleting a
missing Holding changes nothing), but the failure is only logged: the
endpoint's HTTP response is an unconditional queued acknowledgement, never a
rejection surfaced to the caller. -/
theorem reject_logged_unchanged_C4 :
    (∀ db now f symbol uid q pOpt,
      findHolding db.holdings uid (pyUpper symbol) = none →
      (sell_holding db now f symbol uid q pOpt).db = db ∧
      (sell_holding db now f symbol uid q pOpt).response =
        ApiResult.body "queued" ("Sale of " ++ pyUpper symbol ++ " queued for processing.")) ∧
    (∀ db now f symbol uid q pOpt h,
      findHolding db.holdings uid (pyUpper symbol) = some h →
      (q ≤ 0 ∨ h.qty < q) →
      (sell_holding db now f symbol uid q pOpt).db = db ∧
      (sell_holding db now f symbol uid q pOpt).response =
        ApiResult.body "queued" ("Sale of " ++ pyUpper symbol ++ " queued for processing.")) ∧
    (∀ db symbol uid,
      findHolding db.holdings uid (pyUpper symbol) = none →
      (delete_holding db symbol uid).db = db ∧
      (delete_holding db symbol uid).response =
        ApiResult.body "queued" ("Holding " ++ pyUpper symbol ++ " deletion queued")) := by
  refine ⟨?_, ?_, ?_⟩
  · intro db now f symbol uid q pOpt hf
    exact ⟨by simp [sell_holding, process_sale, hf], rfl⟩
  · intro db now f symbol uid q pOpt h hf hcond
    exact ⟨by simp [sell_holding, process_sale, hf, hcond], rfl⟩
  · intro db symbol uid hf
    exact ⟨by simp [delete_holding, perform_delete, deleteFirst_of_none hf], rfl⟩

/-- Witness for `reject_logged_unchanged_C4`: with a holding of 10 AAPL,
overselling 15 leaves the database unchanged, and deleting a missing MSFT
holding leaves it unchanged. -/
theorem reject_logged_unchanged_C4_witness :
    findHolding dbTen.holdings "u" (pyUpper "AAPL") = some ⟨"AAPL", 10, 100, "u"⟩ ∧
    ((15 : ℚ) ≤ 0 ∨ (Holding.mk "AAPL" 10 100 "u").qty < 15) ∧
    (sell_holding dbTen 0 none "AAPL" "u" 15 none).db = dbTen ∧
    findHolding dbTen.holdings "u" (pyUpper "MSFT") = none ∧
    (delete_holding dbTen "MSFT" "u").db = dbTen := by
  have h1 : findHolding dbTen.holdings "u" (pyUpper "AAPL") = some ⟨"AAPL", 10, 100, "u"⟩ := by
    simp [dbTen, findHolding, holdingKey, pyUpper_AAPL]
  have hcond : (15 : ℚ) ≤ 0 ∨ (Holding.mk "AAPL" 10 100 "u").qty < 15 := by norm_num
  have h2 : findHolding dbTen.holdings "u" (pyUpper "MSFT") = none := by
    simp [dbTen, findHolding, holdingKey]
    decide
  exact ⟨h1, hcond,
    (reject_logged_unchanged_C4.2.1 dbTen 0 none "AAPL" "u" 15 none _ h1 hcond).1,
    h2, (reject_logged_unchanged_C4.2.2 dbTen "MSFT" "u" h2).1⟩

/-- C7 counterexample: the only holding-upsert operation, `add_holding`, does
not overwrite: on an existing AAPL position (qty 10, average cost 100) an
edit submission of (qty 10, cost 200) produces the weighted average
(qty 20, cost 150) instead of the overwrite (10, 200) that the claimed
`set_position` semantics demands. -/
theorem set_position_C7_counterexample :
    findHolding (insert_or_update dbTen 0 none "u" "AAPL" 10 200).holdings "u" "AAPL" =
      some ⟨"AAPL", 20, 150, "u"⟩ ∧
    findHolding (insert_or_update dbTen 0 none "u" "AAPL" 10 200).holdings "u" "AAPL" ≠
      some ⟨"AAPL", 10, 200, "u"⟩ := by
  have h : findHolding (insert_or_update dbTen 0 none "u" "AAPL" 10 200).holdings "u" "AAPL" =
      some ⟨"AAPL", 20, 150, "u"⟩ := by
    norm_num [dbTen, insert_or_update, findHolding, holdingKey, updateQtyPrice, pyUpper_AAPL]
  refine ⟨h, ?_⟩
  rw [h]
  intro hc
  rw [Option.some.injEq, Holding.mk.injEq] at hc
  norm_num at hc

/-- C7 (amended): no unconditional-overwrite `set_position` operation exists;
the ledger's single upsert, `add_holding`, always applies weighted-average
cost-basis accounting to an existing Holding (so an "edit" submission is
averaged with the prior state, not written through) and creates the Holding
with the given (quantity, price) when none exists. -/
theorem add_holding_always_averages_C7 (db : DB) (now : ℚ) (f : Option ℚ)
    (uid symbol : String) (q p : ℚ) :
    (∀ ex, findHolding db.holdings uid (pyUpper symbol) = some ex →
      findHolding (add_holding db now f uid symbol q p).db.holdings uid (pyUpper symbol) =
        some ⟨ex.symbol, ex.qty + q, (ex.price * ex.qty + p * q) / (ex.qty + q), ex.user_id⟩) ∧
    (findHolding db.holdings uid (pyUpper symbol) = none →
      findHolding (add_holding db now f uid symbol q p).db.holdings uid (pyUpper symbol) =
        some ⟨pyUpper symbol, q, p, uid⟩) := by
  constructor
  · intro ex hf
    have hdb : (add_holding db now f uid symbol q p).db = insert_or_update db now f uid symbol q p := rfl
    rw [hdb, insert_or_update_holdings_existing hf]
    exact findHolding_updateQtyPrice hf
  · intro hf
    have hdb : (add_holding db now f uid symbol q p).db = insert_or_update db now f uid symbol q p := rfl
    rw [hdb, insert_or_update_holdings_none hf]
    exact findHolding_append_of_none hf (holdingKey_eq_true.mpr ⟨rfl, rfl⟩)

/-- Witness for `add_holding_always_averages_C7` on a concrete state: an
existing (10, 100) AAPL position and an add of (10, 200) average to (20, 150). -/
theorem add_holding_always_averages_C7_witness :
    findHolding dbTen.holdings "u" (pyUpper "AAPL") = some ⟨"AAPL", 10, 100, "u"⟩ ∧
    findHolding (add_holding dbTen 0 none "u" "AAPL" 10 200).db.holdings "u" (pyUpper "AAPL") =
      some ⟨"AAPL", 10 + 10, (100 * 10 + 200 * 10) / (10 + 10), "u"⟩ := by
  have h1 : findHolding dbTen.holdings "u" (pyUpper "AAPL") = some ⟨"AAPL", 10, 100, "u"⟩ := by
    simp [dbTen, findHolding, holdingKey, pyUpper_AAPL]
  exact ⟨h1, (add_holding_always_averages_C7 dbTen 0 none "u" "AAPL" 10 200).1 _ h1⟩

/-- C5: quantities stay non-negative and no zero-quantity Holding persists:
acquisition with positive quantity, disposal (with any arguments), and
removal preserve the invariant, and a disposal that brings the quantity to
zero deletes the record. -/
theorem holding_qty_invariant_C5 :
    (∀ (db : DB) (now : ℚ) (f : Option ℚ) (uid symbol : String) (q p : ℚ),
      QtyInvariant db.holdings → 0 < q →
      QtyInvariant (insert_or_update db now f uid symbol q p).holdings) ∧
    (∀ (db : DB) (now : ℚ) (f : Option ℚ) (symbol uid : String) (q : ℚ) (pOpt : Option ℚ),
      QtyInvariant db.holdings →
      QtyInvariant (process_sale db now f symbol uid q pOpt).holdings) ∧
    (∀ (db : DB) (uid symbol : String),
      QtyInvariant db.holdings → QtyInvariant (perform_delete db uid symbol).holdings) ∧
    (∀ (db : DB) (now : ℚ) (f : Option ℚ) (symbol uid : String) (q : ℚ) (pOpt : Option ℚ)
      (h : Holding), UniqueKeys db.holdings →
      findHolding db.holdings uid (pyUpper symbol) = some h → 0 < q → q = h.qty →
      findHolding (process_sale db now f symbol uid q pOpt).holdings uid (pyUpper symbol) =
        none) := by
  refine ⟨?_, ?_, ?_, ?_⟩
  · intro db now f uid symbol q p hinv hq
    cases hf : findHolding db.holdings uid (pyUpper symbol) with
    | some ex =>
      rw [insert_or_update_holdings_existing hf]
      intro a ha
      rcases mem_updateQtyPrice ha with hmem | hqty
      · exact hinv a hmem
      · have hex := hinv ex (findHolding_mem hf)
        have hexq : 0 < ex.qty := lt_of_le_of_ne hex.1 (Ne.symm hex.2)
        rw [hqty]
        exact ⟨le_of_lt (by linarith), ne_of_gt (by linarith)⟩
    | none =>
      rw [insert_or_update_holdings_none hf]
      intro a ha
      rcases List.mem_append.mp ha with hmem | hnew
      · exact hinv a hmem
      · rw [List.mem_singleton] at hnew
        rw [hnew]
        exact ⟨le_of_lt hq, ne_of_gt hq⟩
  · intro db now f symbol uid q pOpt hinv
    rw [process_sale_holdings]
    cases hf : findHolding db.holdings uid (pyUpper symbol) with
    | none => exact hinv
    | some h =>
      by_cases h1 : q ≤ 0 ∨ h.qty < q
      · simp only [h1, if_true]
        exact hinv
      · simp only [h1, if_false]
        by_cases h2 : h.qty - q ≤ 0
        · simp only [h2, if_true]
          intro a ha
          exact hinv a (mem_deleteFirst ha)
        · simp only [h2, if_false]
          intro a ha
          rcases mem_updateQty ha with hmem | hqty
          · exact hinv a hmem
          · rw [not_le] at h2
            rw [hqty]
            exact ⟨le_of_lt h2, ne_of_gt h2⟩
  · intro db uid symbol hinv a ha
    exact hinv a (mem_deleteFirst ha)
  · intro db now f symbol uid q pOpt h hU hfind hq hqe
    rw [process_sale_holdings, hfind]
    have hc1 : ¬(q ≤ 0 ∨ h.qty < q) := by
      push_neg
      exact ⟨hq, le_of_eq hqe⟩
    have hc2 : h.qty - q ≤ 0 := by
      rw [hqe]
      simp
    simp only [hc1, if_false, hc2, if_true]
    exact findHolding_deleteFirst hU

/-- Witness for `holding_qty_invariant_C5`: the invariant holds on the
one-holding state `dbTen`, is preserved by an acquisition of quantity 3, and
selling the full 10 deletes the record. -/
theorem holding_qty_invariant_C5_witness :
    QtyInvariant dbTen.holdings ∧ (0 : ℚ) < 3 ∧
    QtyInvariant (insert_or_update dbTen 0 none "u" "AAPL" 3 50).holdings ∧
    UniqueKeys dbTen.holdings ∧
    findHolding dbTen.holdings "u" (pyUpper "AAPL") = some ⟨"AAPL", 10, 100, "u"⟩ ∧
    (0 : ℚ) < 10 ∧ (10 : ℚ) = (Holding.mk "AAPL" 10 100 "u").qty ∧
    findHolding (process_sale dbTen 0 none "AAPL" "u" 10 (some 120)).holdings "u"
      (pyUpper "AAPL") = none := by
  have hinv : QtyInvariant dbTen.holdings := by
    intro a ha
    rw [dbTen] at ha
    rcases List.mem_singleton.mp ha with rfl
    norm_num
  have hU : UniqueKeys dbTen.holdings := by
    rw [dbTen]
    exact List.pairwise_singleton _ _
  have h1 : findHolding dbTen.holdings "u" (pyUpper "AAPL") = some ⟨"AAPL", 10, 100, "u"⟩ := by
    simp [dbTen, findHolding, holdingKey, pyUpper_AAPL]
  refine ⟨hinv, by norm_num,
    holding_qty_invariant_C5.1 dbTen 0 none "u" "AAPL" 3 50 hinv (by norm_num),
    hU, h1, by norm_num, by norm_num, ?_⟩
  exact holding_qty_invariant_C5.2.2.2 dbTen 0 none "AAPL" "u" 10 (some 120) _ hU h1
    (by norm_num) (by norm_num)

/-- C6: a partial disposal (0 < qty < current) turns the holdings list into a
single-field quantity update: the surviving record keeps its symbol, owner
and average cost with only the quantity decremented, and every record with a
different key is untouched. -/
theorem dispose_frame_C6 (db : DB) (now : ℚ) (f : Option ℚ) (symbol uid : String)
    (q : ℚ) (pOpt : Option ℚ) (h : Holding)
    (hfind : findHolding db.holdings uid (pyUpper symbol) = some h)
    (hq0 : 0 < q) (hlt : q < h.qty) :
    (process_sale db now f symbol uid q pOpt).holdings =
      updateQty db.holdings uid (pyUpper symbol) (h.qty - q) ∧
    findHolding (process_sale db now f symbol uid q pOpt).holdings uid (pyUpper symbol) =
      some ⟨h.symbol, h.qty - q, h.price, h.user_id⟩ ∧
    (∀ g ∈ db.holdings, holdingKey uid (pyUpper symbol) g = false →
      g ∈ (process_sale db now f symbol uid q pOpt).holdings) := by
  have hH : (process_sale db now f symbol uid q pOpt).holdings =
      updateQty db.holdings uid (pyUpper symbol) (h.qty - q) := by
    rw [process_sale_holdings, hfind]
    have hc1 : ¬(q ≤ 0 ∨ h.qty < q) := by
      push_neg
      exact ⟨hq0, le_of_lt hlt⟩
    have hc2 : ¬(h.qty - q ≤ 0) := not_le.mpr (by linarith)
    simp only [hc1, if_false, hc2, if_true]
  refine ⟨hH, ?_, ?_⟩
  · rw [hH]
    exact findHolding_updateQty hfind
  · intro g hg hk
    rw [hH]
    exact mem_updateQty_of_key_false hg hk

/-- Witness for `dispose_frame_C6`: selling 4 of 10 AAPL bought at 100 leaves
a record with quantity 6 and unchanged symbol, owner and average cost. -/
theorem dispose_frame_C6_witness :
    findHolding dbTen.holdings "u" (pyUpper "AAPL") = some ⟨"AAPL", 10, 100, "u"⟩ ∧
    (0 : ℚ) < 4 ∧ (4 : ℚ) < (Holding.mk "AAPL" 10 100 "u").qty ∧
    findHolding (process_sale dbTen 0 none "AAPL" "u" 4 (some 170)).holdings "u"
      (pyUpper "AAPL") = some ⟨"AAPL", 10 - 4, 100, "u"⟩ := by
  have h1 : findHolding dbTen.holdings "u" (pyUpper "AAPL") = some ⟨"AAPL", 10, 100, "u"⟩ := by
    simp [dbTen, findHolding, holdingKey, pyUpper_AAPL]
  refine ⟨h1, by norm_num, by norm_num, ?_⟩
  exact (dispose_frame_C6 dbTen 0 none "AAPL" "u" 4 (some 170) _ h1 (by norm_num)
    (by norm_num)).2.1

theorem sumQ_cons (qp : ℚ × ℚ) (L : List (ℚ × ℚ)) : sumQ (qp :: L) = qp.1 + sumQ L := by
  simp [sumQ]

theorem sumQP_cons (qp : ℚ × ℚ) (L : List (ℚ × ℚ)) :
    sumQP (qp :: L) = qp.1 * qp.2 + sumQP L := by
  simp [sumQP]

theorem acquire_seq_existing (now : ℚ) (f : Option ℚ) (uid symbol : String) :
    ∀ (L : List (ℚ × ℚ)) (db : DB) (ex : Holding),
      (∀ qp ∈ L, 0 < qp.1) →
      findHolding db.holdings uid (pyUpper symbol) = some ex →
      0 < ex.qty →
      findHolding (acquire_seq db now f uid symbol L).holdings uid (pyUpper symbol) =
        some ⟨ex.symbol, ex.qty + sumQ L,
          (ex.price * ex.qty + sumQP L) / (ex.qty + sumQ L), ex.user_id⟩
  | [], db, ex, hpos, hf, hq => by
    obtain ⟨s, qq, pp, u⟩ := ex
    simp only [acquire_seq, sumQ, sumQP, List.map_nil, List.sum_nil, add_zero]
    rw [hf]
    simp only at hq
    rw [mul_div_cancel_right₀ pp (ne_of_gt hq)]
  | (q, p) :: rest, db, ex, hpos, hf, hq => by
    have hq0 : 0 < q := hpos (q, p) (List.mem_cons_self _ _)
    have hrest : ∀ qp ∈ rest, 0 < qp.1 := fun qp hqp => hpos qp (List.mem_cons_of_mem _ hqp)
    have hstep : findHolding (insert_or_update db now f uid symbol q p).holdings uid
        (pyUpper symbol) =
        some ⟨ex.symbol, ex.qty + q, (ex.price * ex.qty + p * q) / (ex.qty + q), ex.user_id⟩ := by
      rw [insert_or_update_holdings_existing hf]
      exact findHolding_updateQtyPrice hf
    have IH := acquire_seq_existing now f uid symbol rest
      (insert_or_update db now f uid symbol q p)
      ⟨ex.symbol, ex.qty + q, (ex.price * ex.qty + p * q) / (ex.qty + q), ex.user_id⟩
      hrest hstep (by simp only; linarith)
    have hrw : acquire_seq db now f uid symbol ((q, p) :: rest) =
        acquire_seq (insert_or_update db now f uid symbol q p) now f uid symbol rest := rfl
    rw [hrw, IH]
    have hne : ex.qty + q ≠ 0 := ne_of_gt (by linarith)
    simp only [Option.some.injEq, Holding.mk.injEq, true_and, and_true]
    refine ⟨by rw [sumQ_cons]; ring, ?_⟩
    rw [div_mul_cancel₀ _ hne, sumQ_cons, sumQP_cons]
    congr 1 <;> ring

/-- C1: on a fresh (owner, symbol), a sequence of acquisitions with positive
quantities and prices ends with quantity the sum of acquired quantities and
average cost their quantity-weighted mean; a single acquisition on an
existing Holding sets quantity to `old_qty + qty` and average cost to
`(old_qty*old_cost + qty*price)/(old_qty + qty)`, and creates the Holding
with `(qty, price)` when none exists. -/
theorem acquire_weighted_average_C1 :
    (∀ (db : DB) (now : ℚ) (f : Option ℚ) (uid symbol : String) (L : List (ℚ × ℚ)),
      (∀ qp ∈ L, 0 < qp.1 ∧ 0 < qp.2) →
      findHolding db.holdings uid (pyUpper symbol) = none →
      L ≠ [] →
      findHolding (acquire_seq db now f uid symbol L).holdings uid (pyUpper symbol) =
        some ⟨pyUpper symbol, sumQ L, sumQP L / sumQ L, uid⟩) ∧
    (∀ (db : DB) (now : ℚ) (f : Option ℚ) (uid symbol : String) (q p : ℚ) (ex : Holding),
      findHolding db.holdings uid (pyUpper symbol) = some ex →
      findHolding (insert_or_update db now f uid symbol q p).holdings uid (pyUpper symbol) =
        some ⟨ex.symbol, ex.qty + q, (ex.price * ex.qty + p * q) / (ex.qty + q), ex.user_id⟩) ∧
    (∀ (db : DB) (now : ℚ) (f : Option ℚ) (uid symbol : String) (q p : ℚ),
      findHolding db.holdings uid (pyUpper symbol) = none →
      findHolding (insert_or_update db now f uid symbol q p).holdings uid (pyUpper symbol) =
        some ⟨pyUpper symbol, q, p, uid⟩) := by
  have hcreate : ∀ (db : DB) (now : ℚ) (f : Option ℚ) (uid symbol : String) (q p : ℚ),
      findHolding db.holdings uid (pyUpper symbol) = none →
      findHolding (insert_or_update db now f uid symbol q p).holdings uid (pyUpper symbol) =
        some ⟨pyUpper symbol, q, p, uid⟩ := by
    intro db now f uid symbol q p hf
    rw [insert_or_update_holdings_none hf]
    exact findHolding_append_of_none hf (holdingKey_eq_true.mpr ⟨rfl, rfl⟩)
  refine ⟨?_, ?_, hcreate⟩
  · intro db now f uid symbol L hpos hf hne
    match L with
    | [] => exact absurd rfl hne
    | (q, p) :: rest =>
      have hq0 : 0 < q := (hpos (q, p) (List.mem_cons_self _ _)).1
      have hrest : ∀ qp ∈ rest, 0 < qp.1 := fun qp hqp => (hpos qp (List.mem_cons_of_mem _ hqp)).1
      have hstep := hcreate db now f uid symbol q p hf
      have IH := acquire_seq_existing now f uid symbol rest
        (insert_or_update db now f uid symbol q p) ⟨pyUpper symbol, q, p, uid⟩
        hrest hstep (by simp only; exact hq0)
      have hrw : acquire_seq db now f uid symbol ((q, p) :: rest) =
          acquire_seq (insert_or_update db now f uid symbol q p) now f uid symbol rest := rfl
      rw [hrw, IH]
      simp only [Option.some.injEq, Holding.mk.injEq, true_and, and_true]
      refine ⟨by rw [sumQ_cons], ?_⟩
      rw [sumQ_cons, sumQP_cons]
      congr 1
      ring
  · intro db now f uid symbol q p ex hf
    rw [insert_or_update_holdings_existing hf]
    exact findHolding_updateQtyPrice hf

/-- Witness for `acquire_weighted_average_C1`: acquiring (1 share at 10) then
(3 shares at 20) on a fresh AAPL position yields quantity 4 and average cost
70/4 = 35/2. -/
theorem acquire_weighted_average_C1_witness :
    (∀ qp ∈ [((1 : ℚ), (10 : ℚ)), (3, 20)], 0 < qp.1 ∧ 0 < qp.2) ∧
    findHolding emptyDB.holdings "u" (pyUpper "AAPL") = none ∧
    findHolding (acquire_seq emptyDB 0 none "u" "AAPL" [(1, 10), (3, 20)]).holdings "u"
      (pyUpper "AAPL") = some ⟨"AAPL", 4, 35 / 2, "u"⟩ := by
  have hpos : ∀ qp ∈ [((1 : ℚ), (10 : ℚ)), (3, 20)], 0 < qp.1 ∧ 0 < qp.2 := by
    intro qp hqp
    rcases List.mem_cons.mp hqp with rfl | hqp
    · norm_num
    · rcases List.mem_singleton.mp hqp with rfl
      norm_num
  have hf : findHolding emptyDB.holdings "u" (pyUpper "AAPL") = none := by
    simp [emptyDB, findHolding]
  have H := acquire_weighted_average_C1.1 emptyDB 0 none "u" "AAPL" [(1, 10), (3, 20)]
    hpos hf (by simp)
  refine ⟨hpos, hf, ?_⟩
  rw [H]
  norm_num [sumQ, sumQP, pyUpper_AAPL]

theorem get_cached_price_pos {prices : List PriceDoc} {now : ℚ} {f : Option ℚ}
    {sym : String} {ma : ℚ} {af : Bool}
    (hp : ∀ d ∈ prices, 0 < d.price) (hf : ∀ v, f = some v → 0 < v) :
    ∀ p, (get_cached_price prices now f sym ma af).price = some p → 0 < p := by
  intro p hsome
  rcases hd : read_price prices (pyUpper sym) with _ | d
  · cases hfr : isFresh (read_price prices (pyUpper sym)) now ma with
    | false =>
      rw [hd] at hfr
      cases af with
      | false => simp [get_cached_price, hd, hfr] at hsome
      | true =>
        cases hfv : f with
        | none => simp [get_cached_price, hd, hfr, hfv] at hsome
        | some v =>
          simp [get_cached_price, hd, hfr, hfv] at hsome
          rw [← hsome]
          exact hf v hfv
    | true =>
      rw [hd] at hfr
      simp [isFresh] at hfr
  · have hdp : 0 < d.price := hp d (read_price_mem hd)
    cases hfr : isFresh (read_price prices (pyUpper sym)) now ma with
    | false =>
      rw [hd] at hfr
      cases af with
      | false =>
        simp [get_cached_price, hd, hfr] at hsome
        rw [← hsome]
        exact hdp
      | true =>
        cases hfv : f with
        | none =>
          simp [get_cached_price, hd, hfr, hfv] at hsome
          rw [← hsome]
          exact hdp
        | some v =>
          simp [get_cached_price, hd, hfr, hfv] at hsome
          rw [← hsome]
          exact hf v hfv
    | true =>
      rw [hd] at hfr
      simp [get_cached_price, hd, hfr] at hsome
      rw [← hsome]
      exact hdp

/-- C2: a valid disposal resolves the sale price exactly as specified —
explicit price if given, else the cache with fetching allowed and the short
300-second window, else the position's own average cost — appends a
RealizedSale with profit `(sale_price − average_cost) × quantity`, decrements
the Holding's quantity, deletes the Holding when the quantity reaches zero,
and never fails for lack of a live price (the conclusion holds for every
`fetchResult`, including total provider failure). -/
theorem dispose_records_sale_C2 (db : DB) (now : ℚ) (f : Option ℚ)
    (symbol uid : String) (q : ℚ) (priceOpt : Option ℚ) (h : Holding)
    (hU : UniqueKeys db.holdings)
    (hfind : findHolding db.holdings uid (pyUpper symbol) = some h)
    (hq0 : 0 < q) (hqle : q ≤ h.qty)
    (hprices : ∀ d ∈ db.prices, 0 < d.price)
    (hfpos : ∀ v, f = some v → 0 < v) :
    (process_sale db now f symbol uid q priceOpt).realized =
      db.realized ++ [⟨pyUpper symbol, q, h.price,
        specResolveSellPrice db.prices now f (pyUpper symbol) h.price priceOpt,
        (specResolveSellPrice db.prices now f (pyUpper symbol) h.price priceOpt - h.price) * q,
        uid⟩] ∧
    (q = h.qty → findHolding (process_sale db now f symbol uid q priceOpt).holdings uid
      (pyUpper symbol) = none) ∧
    (q < h.qty → findHolding (process_sale db now f symbol uid q priceOpt).holdings uid
      (pyUpper symbol) = some ⟨h.symbol, h.qty - q, h.price, h.user_id⟩) := by
  have hcond : ¬(q ≤ 0 ∨ h.qty < q) := by
    push_neg
    exact ⟨hq0, hqle⟩
  refine ⟨?_, ?_, ?_⟩
  · cases priceOpt with
    | some p => simp [process_sale, hfind, hcond, sellFinish, specResolveSellPrice]
    | none =>
      have hres : pyOr (get_cached_price db.prices now f (pyUpper symbol) 300 true).price
          h.price = specResolveSellPrice db.prices now f (pyUpper symbol) h.price none := by
        rcases hc : (get_cached_price db.prices now f (pyUpper symbol) 300 true).price
          with _ | v
        · simp [pyOr, specResolveSellPrice, hc]
        · have hv : 0 < v := get_cached_price_pos hprices hfpos v hc
          simp [pyOr, specResolveSellPrice, hc, (ne_of_gt hv : v ≠ 0)]
      simp [process_sale, hfind, hcond, sellFinish, hres]
  · intro hqe
    rw [process_sale_holdings, hfind]
    have hc2 : h.qty - q ≤ 0 := by
      rw [hqe]
      simp
    simp only [hcond, if_false, hc2, if_true]
    exact findHolding_deleteFirst hU
  · intro hlt
    rw [process_sale_holdings, hfind]
    have hc2 : ¬(h.qty - q ≤ 0) := not_le.mpr (by linarith)
    simp only [hcond, if_false, hc2, if_true]
    exact findHolding_updateQty hfind

/-- Witness for `dispose_records_sale_C2`: selling the full 5 shares of AAPL
bought at 100 with an explicit price of 120 records a sale with profit
exactly 100 and deletes the holding. -/
theorem dispose_records_sale_C2_witness :
    UniqueKeys dbSell.holdings ∧
    findHolding dbSell.holdings "u" (pyUpper "AAPL") = some ⟨"AAPL", 5, 100, "u"⟩ ∧
    (0 : ℚ) < 5 ∧ (5 : ℚ) ≤ (Holding.mk "AAPL" 5 100 "u").qty ∧
    (process_sale dbSell 0 none "AAPL" "u" 5 (some 120)).realized =
      [⟨"AAPL", 5, 100, 120, 100, "u"⟩] ∧
    findHolding (process_sale dbSell 0 none "AAPL" "u" 5 (some 120)).holdings "u"
      (pyUpper "AAPL") = none := by
  have hU : UniqueKeys dbSell.holdings := by
    rw [dbSell]
    exact List.pairwise_singleton _ _
  have h1 : findHolding dbSell.holdings "u" (pyUpper "AAPL") = some ⟨"AAPL", 5, 100, "u"⟩ := by
    simp [dbSell, findHolding, holdingKey, pyUpper_AAPL]
  have H := dispose_records_sale_C2 dbSell 0 none "AAPL" "u" 5 (some 120) _ hU h1
    (by norm_num) (by norm_num) (by simp [dbSell]) (by simp)
  refine ⟨hU, h1, by norm_num, by norm_num, ?_, H.2.1 rfl⟩
  have hr := H.1
  rw [hr]
  simp [dbSell, specResolveSellPrice, pyUpper_AAPL]
  norm_num

theorem uidA_valid : isValidObjectId uidA = true := by decide

/-- C8 counterexample: with the cached AAPL price 1/8 (fresh) and one share
held at average cost 0 by an existing user, the emitted row carries value
`round(1/8 × 1, 2) = 3/25`, not `current_price × quantity = 1/8` as the
claim's unrounded formula asserts (the code rounds the row's monetary fields
to two decimal places). -/
theorem valuate_rounding_C8_counterexample :
    get_portfolio dbRound 0 uidA =
      Except.ok ⟨[⟨"AAPL", 1, 0, some (3 / 25), some (3 / 25), some (3 / 25), none⟩], 0⟩ ∧
    (3 / 25 : ℚ) ≠ (1 / 8 : ℚ) * 1 := by
  constructor
  · have hval : isValidObjectId "aaaaaaaaaaaaaaaaaaaaaaaa" = true := by decide
    norm_num [get_portfolio, dbRound, uidA, hval, portfolioRow, get_cached_price, read_price,
      isFresh, round2, roundHalfEven, pyUpper_AAPL, List.contains, List.filter, List.map]
  · norm_num

/-- C8 (amended): for a well-formed, existing owner, the portfolio response
has exactly one row per positive-quantity holding (none dropped), each row
reading its price from the cache with `allow_fetch=false` and carrying —
rounded to two decimal places — `value = current_price × qty` and
`unrealized_profit = (current_price − average_cost) × qty` when a price is
available, or null fields and a `price_unavailable` marker when not; the
realized profit is the sum of the owner's sale profits (0 when there are
none). -/
theorem valuate_rows_C8 (db : DB) (now : ℚ) (uid : String)
    (hvalid : isValidObjectId uid = true) (hmem : db.users.contains uid = true) :
    ∀ pf, get_portfolio db now uid = Except.ok pf → RowMatches db now uid pf := by
  intro pf hpf
  have hmem' : uid ∈ db.users := by simpa using hmem
  have hok : get_portfolio db now uid = Except.ok
      ⟨(db.holdings.filter (fun h => h.user_id == uid && decide (0 < h.qty))).map
        (portfolioRow db.prices now),
       ((db.realized.filter (fun s => s.user_id == uid)).map Sale.profit).sum⟩ := by
    simp [get_portfolio, hvalid, hmem']
  rw [hok] at hpf
  rw [Except.ok.injEq] at hpf
  subst hpf
  unfold RowMatches
  refine ⟨by simp, ?_, ?_, rfl⟩
  · intro r hr
    rw [List.mem_map] at hr
    obtain ⟨h, hh, hrow⟩ := hr
    rw [List.mem_filter] at hh
    obtain ⟨hmem'', hfilter⟩ := hh
    have huid : h.user_id = uid := by
      have := (Bool.and_eq_true _ _).mp hfilter
      exact beq_iff_eq.mp this.1
    have hqty : 0 < h.qty := by
      have := (Bool.and_eq_true _ _).mp hfilter
      exact of_decide_eq_true this.2
    refine ⟨h, hmem'', huid, hqty, ?_⟩
    rcases hc : (get_cached_price db.prices now none h.symbol 3600 false).price with _ | p
    · rw [← hrow]
      simp [portfolioRow, hc]
    · rw [← hrow]
      simp [portfolioRow, hc]
  · intro h hh huid hq
    exact List.mem_map_of_mem _ (List.mem_filter.mpr ⟨hh, by simp [huid, hq]⟩)

/-- Witness for `valuate_rows_C8` on the concrete state `dbRound`. -/
theorem valuate_rows_C8_witness :
    isValidObjectId uidA = true ∧
    dbRound.users.contains uidA = true ∧
    (∀ pf, get_portfolio dbRound 0 uidA = Except.ok pf → RowMatches dbRound 0 uidA pf) := by
  have hmem : dbRound.users.contains uidA = true := by
    simp [dbRound, List.contains]
  exact ⟨uidA_valid, hmem, valuate_rows_C8 dbRound 0 uidA uidA_valid hmem⟩

/-- C10: the portfolio view rejects a malformed owner id with a 400 error and
an unknown owner with a 404 error rather than answering with an empty
portfolio; a successful response implies the owner id was well-formed and
present; and an existing owner with no positive-quantity holdings receives an
empty row list with the realized-profit sum, not an error. -/
theorem valuate_user_validation_C10 :
    (∀ (db : DB) (now : ℚ) (uid : String), isValidObjectId uid = false →
      get_portfolio db now uid = Except.error (400, "Invalid user_id")) ∧
    (∀ (db : DB) (now : ℚ) (uid : String), isValidObjectId uid = true →
      db.users.contains uid = false →
      get_portfolio db now uid = Except.error (404, "User not found")) ∧
    (∀ (db : DB) (now : ℚ) (uid : String) (pf : Portfolio),
      get_portfolio db now uid = Except.ok pf →
      isValidObjectId uid = true ∧ db.users.contains uid = true) ∧
    (∀ (db : DB) (now : ℚ) (uid : String), isValidObjectId uid = true →
      db.users.contains uid = true →
      db.holdings.filter (fun h => h.user_id == uid && decide (0 < h.qty)) = [] →
      get_portfolio db now uid =
        Except.ok ⟨[], ((db.realized.filter (fun s => s.user_id == uid)).map
          Sale.profit).sum⟩) := by
  refine ⟨?_, ?_, ?_, ?_⟩
  · intro db now uid hv
    simp [get_portfolio, hv]
  · intro db now uid hv hm
    have hm' : uid ∉ db.users := by simpa using hm
    simp [get_portfolio, hv, hm']
  · intro db now uid pf hok
    by_cases hv : isValidObjectId uid = true
    · by_cases hm : db.users.contains uid = true
      · exact ⟨hv, hm⟩
      · rw [Bool.not_eq_true] at hm
        have hm' : uid ∉ db.users := by simpa using hm
        simp [get_portfolio, hv, hm'] at hok
    · rw [Bool.not_eq_true] at hv
      simp [get_portfolio, hv] at hok
  · intro db now uid hv hm hfil
    have hm' : uid ∈ db.users := by simpa using hm
    simp [get_portfolio, hv, hm', hfil]

/-- Witness for `valuate_user_validation_C10`: the malformed id `"u"` is
rejected with 400, the well-formed but unknown `uidA` is rejected with 404 on
an empty user table, and an existing owner with no holdings receives an empty
portfolio with realized profit 0. -/
theorem valuate_user_validation_C10_witness :
    isValidObjectId "u" = false ∧
    get_portfolio emptyDB 0 "u" = Except.error (400, "Invalid user_id") ∧
    isValidObjectId uidA = true ∧
    emptyDB.users.contains uidA = false ∧
    get_portfolio emptyDB 0 uidA = Except.error (404, "User not found") ∧
    get_portfolio (DB.mk [uidA] [] [] []) 0 uidA = Except.ok ⟨[], 0⟩ := by
  have hv : isValidObjectId "u" = false := by decide
  have hm : emptyDB.users.contains uidA = false := by simp [emptyDB]
  have hm2 : (DB.mk [uidA] [] [] []).users.contains uidA = true := by simp [List.contains]
  have h4 := valuate_user_validation_C10.2.2.2 (DB.mk [uidA] [] [] []) 0 uidA uidA_valid hm2
    (by simp)
  refine ⟨hv, valuate_user_validation_C10.1 emptyDB 0 "u" hv, uidA_valid, hm,
    valuate_user_validation_C10.2.1 emptyDB 0 uidA uidA_valid hm, ?_⟩
  simpa using h4

end Backend
